import Mathlib

/-!
Shallow embedding of `clay` (the test-suite generator in `_clay.py`) and
proofs about its discovery / extraction / rendering pipeline.

The embedding mirrors the Python module definition by definition:
  * `matchAt` / `scanF` / `findAll` embed the single regex pass of
    `TEST_FUNC_REGEX % suite_name` with `re.MULTILINE` over a file's text
    (`_process_test_file`, line 204-211).
  * `classify` embeds the classification loop (lines 211-223).
  * `process_test_file` embeds `_process_test_file` (lines 204-253).
  * `processFiles` embeds the `os.walk` loop of `__init__` (lines 59-70),
    taking the visited files (directory components, file name, contents)
    as an explicit list in visitation order.
  * `builder_init` embeds `__init__`'s terminal check (lines 72-74).
  * `render_cb`, `render_suite`, `render_callbacks`, `header_lines`,
    `render_header`, `render_main` embed the render methods (lines 91-172);
    the surrounding template texts (`clay.h`, `clay.c`, harness modules) are
    external collaborators and appear only as opaque `pre`/`post` segments.

Python strings compare by code point; `strLeB` embeds that order so that
sorting is executable in the kernel.
-/

/-- Python's regex class `\s` on ASCII characters: space, tab, newline,
vertical tab, form feed and carriage return.  Python's `\s` additionally
matches some non-ASCII Unicode whitespace which this predicate does not, so
the embedding of the extractor is exact on ASCII source text; the universal
extraction claim (C9, amended) is accordingly scoped by an ASCII hypothesis
on the contents, and all concrete inputs in this development are ASCII. -/
def isPySpace (c : Char) : Bool :=
  c = ' ' || c = '\t' || c = '\n' || c = '\x0b' || c = '\x0c' || c = '\r'

/-- Python's regex class `\w` on ASCII characters: letters, digits and
underscore.  Python's `\w` additionally matches non-ASCII word characters
which this predicate does not, so, as with `isPySpace`, the embedding of the
extractor is exact on ASCII source text and the universal extraction claim
is scoped by an ASCII hypothesis on the contents. -/
def isWordChar (c : Char) : Bool := c.isAlphanum || c = '_'

/-- Strip an expected literal character sequence from the front of the input;
`none` when the input does not start with the literal. -/
def stripLit : List Char → List Char → Option (List Char)
  | [], cs => some cs
  | _ :: _, [] => none
  | l :: ls, c :: cs => if c = l then stripLit ls cs else none

/-- One attempt of `TEST_FUNC_REGEX % suite_name`, i.e.
`^(void\s+(test_<suite>__(\w+))\(\s*void\s*\))\s*\{`, at the current
position (the caller guarantees the position is a line start, which is what
`^` under `re.MULTILINE` demands).  Each greedy class (`\s+`, `\s*`, `\w+`)
is followed in the pattern by a literal whose first character the class can
never match, so the regex engine's greedy matching never backtracks and the
maximal-munch chain below is exact.  On success returns the triple of the
three capture groups `(declaration, symbol, short_name)` — the tuple order
`re.findall` yields — and the rest of the input after the final `{`.

This matcher treats the interpolated suite name as a literal.  Python
splices the derived name into the pattern text unescaped (line 205), so
this is the program's behavior exactly when the suite name contains only
regex-literal characters — in particular for word-character names, which
is what word-character file paths derive.  `matchAtP` below models the
spliced pattern itself for the literal-or-dot fragment, and `matchAtP_lit`
proves the two agree on word-character suite names; suite names containing
other regex metacharacters leave the grammar (see `compileSuite`). -/
def matchAt (suite : String) (cs : List Char) : Option ((String × String × String) × List Char) :=
  match stripLit (("void").data) cs with
  | none => none
  | some cs1 =>
    let sp1 := cs1.takeWhile isPySpace
    let cs2 := cs1.dropWhile isPySpace
    if sp1 = [] then none else
    match stripLit (("test_" ++ suite ++ "__").data) cs2 with
    | none => none
    | some cs3 =>
      let idc := cs3.takeWhile isWordChar
      let cs4 := cs3.dropWhile isWordChar
      if idc = [] then none else
      match stripLit (("(").data) cs4 with
      | none => none
      | some cs5 =>
        let sp2 := cs5.takeWhile isPySpace
        let cs6 := cs5.dropWhile isPySpace
        match stripLit (("void").data) cs6 with
        | none => none
        | some cs7 =>
          let sp3 := cs7.takeWhile isPySpace
          let cs8 := cs7.dropWhile isPySpace
          match stripLit ((")").data) cs8 with
          | none => none
          | some cs9 =>
            let cs10 := cs9.dropWhile isPySpace
            match stripLit (("\x7b").data) cs10 with
            | none => none
            | some rest =>
              let symbol := "test_" ++ suite ++ "__" ++ String.mk idc
              let decl := "void" ++ String.mk sp1 ++ symbol ++ "(" ++
                String.mk sp2 ++ "void" ++ String.mk sp3 ++ ")"
              some ((decl, symbol, String.mk idc), rest)

/-- The `re.findall` scan: try the anchored pattern at every line-start
position, continue after the end of each (non-overlapping) match, otherwise
advance one character; a position is a line start when it is position 0 or
the preceding character is a newline (`ls` tracks this).  The recursion is
on explicit fuel; every successful match consumes at least one character
(the final `{`), so `fuel = cs.length` never runs out before the scan ends
and the function computes exactly the Python scan. -/
def scanF (suite : String) : Nat → List Char → Bool → List (String × String × String)
  | 0, _, _ => []
  | _, [], _ => []
  | fuel + 1, c :: rest, ls =>
    if ls then
      match matchAt suite (c :: rest) with
      | some (t, after) => t :: scanF suite fuel after false
      | none => scanF suite fuel rest (c = '\n')
    else scanF suite fuel rest (c = '\n')

/-- `regex.findall(contents)` for `regex = re.compile(TEST_FUNC_REGEX % suite, re.MULTILINE)`
(`_process_test_file`, lines 205-211): the list of `(declaration, symbol,
short_name)` group triples of all matches, in text order. -/
def findAll (suite : String) (contents : String) : List (String × String × String) :=
  scanF suite contents.data.length contents.data true

/-- Regex metacharacters of Python's `re` other than `.`: a suite name
containing one of these, spliced unescaped into `TEST_FUNC_REGEX`, produces
a pattern outside the grammar fragment this development embeds (an
unbalanced `(` or a trailing `\` even makes `re.compile` raise `re.error`;
a quantifier such as `*` re-quantifies the neighboring atom).  `.` is the
one metacharacter a derived suite name commonly contains — every file
`a.b.c` derives suite name `a.b`, since only the trailing `.c` is
stripped — and it is modeled precisely, as the any-character atom. -/
def isRegexMeta (c : Char) : Bool :=
  c = '\\' || c = '^' || c = '$' || c = '|' || c = '?' || c = '*' || c = '+' ||
  c = '(' || c = ')' || c = '[' || c = ']' || c = '\x7b' || c = '\x7d'

/-- One single-character regex atom of the interpolated suite segment:
a self-matching literal character, or `.` (any character except newline). -/
inductive RAtom where
  | lit (c : Char)
  | dot
deriving DecidableEq

/-- Match a sequence of single-character atoms against the front of the
input; on success returns the text actually consumed (which becomes part of
the capture groups) and the rest.  Each atom consumes exactly one
character, so there is no backtracking to model. -/
def stripPat : List RAtom → List Char → Option (List Char × List Char)
  | [], cs => some ([], cs)
  | _ :: _, [] => none
  | RAtom.lit a :: ps, c :: cs =>
    if c = a then (stripPat ps cs).map (fun pr => (c :: pr.1, pr.2)) else none
  | RAtom.dot :: ps, c :: cs =>
    if c = '\n' then none else (stripPat ps cs).map (fun pr => (c :: pr.1, pr.2))

/-- The compile step `re.compile(TEST_FUNC_REGEX % suite_name, re.MULTILINE)`
(line 205-206) for the suite-name segment, which Python splices into the
pattern text unescaped: each character that is a regex literal matches
itself and `.` becomes the any-character atom.  `none` marks suite names
containing other metacharacters, whose spliced patterns leave the embedded
fragment — several of them (an unbalanced parenthesis, a trailing
backslash) make `re.compile` raise `re.error` instead of ever scanning. -/
def compileSuite (suite : String) : Option (List RAtom) :=
  if suite.data.any isRegexMeta then none
  else some (suite.data.map (fun c => if c = '.' then RAtom.dot else RAtom.lit c))

/-- One attempt of the spliced pattern at a line-start position: exactly
`matchAt` except that the `test_<suite>__` segment is matched as
`test_` (literal), then the compiled suite atoms, then `__` (literal), and
the symbol is built from the text the atoms actually consumed — which is
how the real capture groups behave when the suite name contains `.`. -/
def matchAtP (pats : List RAtom) (cs : List Char) : Option ((String × String × String) × List Char) :=
  match stripLit (("void").data) cs with
  | none => none
  | some cs1 =>
    let sp1 := cs1.takeWhile isPySpace
    let cs2 := cs1.dropWhile isPySpace
    if sp1 = [] then none else
    match stripLit (("test_").data) cs2 with
    | none => none
    | some csA =>
      match stripPat pats csA with
      | none => none
      | some (mid, csB) =>
        match stripLit (("__").data) csB with
        | none => none
        | some cs3 =>
          let idc := cs3.takeWhile isWordChar
          let cs4 := cs3.dropWhile isWordChar
          if idc = [] then none else
          match stripLit (("(").data) cs4 with
          | none => none
          | some cs5 =>
            let sp2 := cs5.takeWhile isPySpace
            let cs6 := cs5.dropWhile isPySpace
            match stripLit (("void").data) cs6 with
            | none => none
            | some cs7 =>
              let sp3 := cs7.takeWhile isPySpace
              let cs8 := cs7.dropWhile isPySpace
              match stripLit ((")").data) cs8 with
              | none => none
              | some cs9 =>
                let cs10 := cs9.dropWhile isPySpace
                match stripLit (("\x7b").data) cs10 with
                | none => none
                | some rest =>
                  let symbol := "test_" ++ String.mk mid ++ "__" ++ String.mk idc
                  let decl := "void" ++ String.mk sp1 ++ symbol ++ "(" ++
                    String.mk sp2 ++ "void" ++ String.mk sp3 ++ ")"
                  some ((decl, symbol, String.mk idc), rest)

/-- The `re.findall` scan driven by `matchAtP`: same line-start /
non-overlap discipline and fuel argument as `scanF`. -/
def scanP (pats : List RAtom) : Nat → List Char → Bool → List (String × String × String)
  | 0, _, _ => []
  | _, [], _ => []
  | fuel + 1, c :: rest, ls =>
    if ls then
      match matchAtP pats (c :: rest) with
      | some (t, after) => t :: scanP pats fuel after false
      | none => scanP pats fuel rest (c = '\n')
    else scanP pats fuel rest (c = '\n')

/-- The extractor under the real splice semantics: compile the interpolated
suite segment, then scan; `none` when the suite name leaves the modeled
fragment (where Python either raises `re.error` or quantifies neighboring
atoms — in no case the literal reading).  On word-character suite names
this agrees with `findAll` (`findAllP_word`). -/
def findAllP (suite : String) (contents : String) : Option (List (String × String × String)) :=
  (compileSuite suite).map (fun pats => scanP pats contents.data.length contents.data true)

/-- Python's string comparison on the underlying character sequences:
lexicographic by code point. -/
def strLeB : List Char → List Char → Bool
  | [], _ => true
  | _ :: _, [] => false
  | a :: as, b :: bs =>
    if a.toNat < b.toNat then true
    else if b.toNat < a.toNat then false
    else strLeB as bs

/-- Python's `<=` on `str` (code-point lexicographic); `sorted` and
`list.sort` order by this relation. -/
def pyLe (a b : String) : Prop := strLeB a.data b.data = true

instance : DecidableRel pyLe :=
  fun a b => (inferInstance : Decidable (strLeB a.data b.data = true))

/-- `sorted(...)` on a list of strings. -/
def pysort (l : List String) : List String := List.insertionSort pyLe l

/-- One matched test function: the record built for each regex match in
`_process_test_file` (lines 212-216). -/
structure CB where
  short_name : String
  declaration : String
  symbol : String
deriving DecidableEq

/-- The key ordering used by `callbacks.sort(key=lambda x: x['short_name'])`
(line 248). -/
def cbLe (a b : CB) : Prop := pyLe a.short_name b.short_name

instance : DecidableRel cbLe := fun a b => (inferInstance : Decidable (pyLe a.short_name b.short_name))

/-- `list.sort(key=...)` on the callback list (line 248). -/
def sortCallbacks (l : List CB) : List CB := List.insertionSort cbLe l

/-- The suite dict built in `_process_test_file` (lines 230-235). -/
structure Suite where
  name : String
  init_cb : Option CB
  cleanup_cb : Option CB
  cb_count : Nat
deriving DecidableEq

/-- Result of the classification loop over one file's matches: the
`initialize` slot, the `cleanup` slot, and the ordinary callback list. -/
structure Extraction where
  init_cb : Option CB
  cleanup_cb : Option CB
  callbacks : List CB
deriving DecidableEq

/-- One iteration of the loop at lines 211-223: route a match triple to the
`initialize` slot, the `cleanup` slot (each last-write-wins), or append it
to the ordinary callback list. -/
def classifyStep (acc : Extraction) (t : String × String × String) : Extraction :=
  let data : CB := ⟨t.2.2, t.1, t.2.1⟩
  if t.2.2 = "initialize" then { acc with init_cb := some data }
  else if t.2.2 = "cleanup" then { acc with cleanup_cb := some data }
  else { acc with callbacks := acc.callbacks ++ [data] }

/-- The whole classification loop over a file's match list. -/
def classify (ts : List (String × String × String)) : Extraction :=
  ts.foldl classifyStep ⟨none, none, []⟩

/-- The builder state: `self.declarations`, `self.suite_names`,
`self.callback_data` and `self.suite_data` (lines 41-44).  The two Python
dicts are embedded as insertion-ordered association lists with unique keys;
assigning an existing key replaces its value in place. -/
structure Builder where
  declarations : List String
  suite_names : List String
  callback_data : List (String × List CB)
  suite_data : List (String × Suite)
deriving DecidableEq

/-- The freshly initialized builder state (lines 41-44). -/
def emptyBuilder : Builder := ⟨[], [], [], []⟩

/-- Python dict assignment `d[k] = v` on the association-list embedding. -/
def dictInsert {α : Type} (k : String) (v : α) : List (String × α) → List (String × α)
  | [] => [(k, v)]
  | p :: rest => if p.1 = k then (k, v) :: rest else p :: dictInsert k v rest

/-- Python dict lookup `d[k]` on the association-list embedding; `none`
models `KeyError`. -/
def dictGet {α : Type} (k : String) : List (String × α) → Option α
  | [] => none
  | p :: rest => if p.1 = k then some p.2 else dictGet k rest

/-- The declaration (if any) contributed by an optional lifecycle slot
(lines 237-241). -/
def optDecl : Option CB → List String
  | some cb => [cb.declaration]
  | none => []

/-- `_process_test_file` (lines 204-253): extract, classify, discard the
file when it yields no ordinary callbacks, otherwise append all
declarations (initialize's, cleanup's, then each ordinary callback's) to
the flat list, sort the ordinary callbacks by `short_name`, store them and
the suite dict under the suite name, and append the name to
`suite_names`. -/
def process_test_file (suite_name : String) (contents : String) (b : Builder) : Builder :=
  let ex := classify (findAll suite_name contents)
  if ex.callbacks = [] then b
  else
    { declarations := b.declarations ++ optDecl ex.init_cb ++ optDecl ex.cleanup_cb ++
        ex.callbacks.map (fun cb => cb.declaration)
      suite_names := b.suite_names ++ [suite_name]
      callback_data := dictInsert suite_name (sortCallbacks ex.callbacks) b.callback_data
      suite_data := dictInsert suite_name ⟨suite_name, ex.init_cb, ex.cleanup_cb, ex.callbacks.length⟩ b.suite_data }

/-- One file visited by the `os.walk` loop: the directory components of its
location relative to the scan root, its file name, and its contents. -/
structure SrcFile where
  dir : List String
  fname : String
  contents : String
deriving DecidableEq

/-- The suite-name derivation of lines 60-67: drop empty path components,
strip the trailing two characters (`.c`) from the file name, and join with
underscores. -/
def suiteNameOf (f : SrcFile) : String :=
  String.intercalate ("_") ((f.dir.filter (fun c => c ≠ "")) ++ [f.fname.dropRight 2])

/-- `fnmatch` against the pattern `*.c` (line 63): a case-sensitive check
that the name ends in `.c`. -/
def matchesDotC (name : String) : Bool :=
  match name.data.reverse with
  | 'c' :: '.' :: _ => true
  | _ => false

/-- The body of the walk loop for one visited file (lines 63-70): files not
matching `*.c` are skipped; matching files are read and processed. -/
def processFile (b : Builder) (f : SrcFile) : Builder :=
  if matchesDotC f.fname then process_test_file (suiteNameOf f) f.contents b else b

/-- The whole `os.walk` loop (lines 59-70) over the visited files in
visitation order, starting from the fresh builder state. -/
def processFiles (files : List SrcFile) : Builder :=
  files.foldl processFile emptyBuilder

/-- A Python exception escaping `__init__`. -/
inductive PyError where
  | nameError (missing : String)
  | runtimeError (msg : String)
deriving DecidableEq

/-- `__init__` (lines 40-74): walk and process every file, then fail when no
suite was collected.  The failure branch executes
`raise RuntimeError('No tests found under "%s"' % folder_name)`, but
`folder_name` is not a name bound anywhere in the module (the path lives in
`self.path`), so evaluating the argument raises
`NameError: name 'folder_name' is not defined` before the `RuntimeError`
is ever constructed; the embedding returns that `NameError`. -/
def builder_init (files : List SrcFile) : Except PyError Builder :=
  let b := processFiles files
  if b.suite_data = [] then Except.error (PyError.nameError ("folder_name"))
  else Except.ok b

/-- `_render_cb` (lines 91-92). -/
def render_cb (cb : CB) : String :=
  "\x7b\"" ++ cb.short_name ++ "\", &" ++ cb.symbol ++ "\x7d"

/-- `suite['name'].replace("_", "::")` (line 111). -/
def cleanName (s : String) : String :=
  String.join (s.data.map (fun c => if c = '_' then "::" else String.mk [c]))

/-- `_render_suite` (lines 94-116): the suite-descriptor block, i.e. the
suite template with `clean_name`, `initialize`, `cleanup`, `cb_ptr` and
`cb_count` substituted and the result stripped of surrounding
whitespace. -/
def render_suite (s : Suite) : String :=
  let icb := match s.init_cb with
    | some cb => render_cb cb
    | none => "\x7bNULL, NULL\x7d"
  let ccb := match s.cleanup_cb with
    | some cb => render_cb cb
    | none => "\x7bNULL, NULL\x7d"
  "\x7b\n        \"" ++ cleanName s.name ++ "\",\n        " ++ icb ++ ",\n        " ++
    ccb ++ ",\n        " ++ "_clay_cb_" ++ s.name ++ ", " ++ toString s.cb_count ++ "\n    \x7d"

/-- The callback-array block for a suite name and an already-rendered entry
list: the callbacks template with `suite_name` and the `",\n\t"`-joined
entries substituted and the result stripped (lines 119-134). -/
def callback_block (suite_name : String) (entries : List String) : String :=
  "static const struct clay_func _clay_cb_" ++ suite_name ++ "[] = \x7b\n    " ++
    String.intercalate (",\n\t") entries ++ "\n\x7d;"

/-- `_render_callbacks` (lines 118-134): render every callback whose
`short_name` is not literally `initialize` or `cleanup`, in list order,
into the callback-array block. -/
def render_callbacks (suite_name : String) (callbacks : List CB) : String :=
  callback_block suite_name
    ((callbacks.filter (fun cb => cb.short_name ≠ "initialize" && cb.short_name ≠ "cleanup")).map render_cb)

/-- The `extern` lines of `_render_header` (lines 139-142): one line per
entry of `sorted(self.declarations)`, in that order. -/
def header_lines (b : Builder) : List String :=
  (pysort b.declarations).map (fun d => "extern " ++ d ++ ";")

/-- `_render_header` (lines 136-146): the `clay.h` template is external
text around the single `${extern_declarations}` placeholder, so it appears
as the opaque segments `pre`/`post`. -/
def render_header (pre post : String) (b : Builder) : String :=
  pre ++ String.intercalate ("\n") (header_lines b) ++ post

/-- The renderer-produced substitution values of `_render_main`
(lines 148-172): the callback-array blocks and suite-descriptor blocks in
sorted `suite_names` order, `clay_suite_count`, and
`clay_callback_count`.  The surrounding `clay.c` template and the
concatenated harness modules are external collaborator text. -/
structure MainOutput where
  callbacks_blocks : List String
  suites_blocks : List String
  clay_suite_count : Nat
  clay_callback_count : Nat
deriving DecidableEq

/-- `_render_main` (lines 148-172): iterate `sorted(self.suite_names)`
(duplicates included), look each name up in `suite_data` and
`callback_data` (a missing key would be a `KeyError`, i.e. `none`), and
compute the two aggregate counts: `clay_suite_count` is the length of the
rendered suite-block list and `clay_callback_count` is the sum of the
lengths of the values of `callback_data`. -/
def render_main (b : Builder) : Option MainOutput :=
  match (pysort b.suite_names).mapM (fun s => Option.map render_suite (dictGet s b.suite_data)),
        (pysort b.suite_names).mapM (fun s => Option.map (render_callbacks s) (dictGet s b.callback_data)) with
  | some suiteBlocks, some cbBlocks =>
    some ⟨cbBlocks, suiteBlocks, suiteBlocks.length, (b.callback_data.map (fun p => p.2.length)).sum⟩
  | _, _ => none

/-- The `"\n".join(callbacks)` substitution value (line 168). -/
def clay_callbacks_text (m : MainOutput) : String :=
  String.intercalate ("\n") m.callbacks_blocks

/-- The `",\n\t".join(suite_data)` substitution value (line 169). -/
def clay_suites_text (m : MainOutput) : String :=
  String.intercalate (",\n\t") m.suites_blocks

/-- The declarations one visited file appends to `self.declarations`; they
depend only on the file, not on the builder state. -/
def fileDecls (f : SrcFile) : List String :=
  if matchesDotC f.fname then
    let ex := classify (findAll (suiteNameOf f) f.contents)
    if ex.callbacks = [] then []
    else optDecl ex.init_cb ++ optDecl ex.cleanup_cb ++ ex.callbacks.map (fun cb => cb.declaration)
  else []

/-- Invariant of the walk loop: (1) `callback_data` and `suite_data` hold
the same keys in the same order and each stored suite's `cb_count` is the
length of its stored callback list; (2) every name in `suite_names` is a
key of both dicts; (3) every stored callback list is sorted by
`short_name` and free of lifecycle callbacks. -/
def BuilderInv (b : Builder) : Prop :=
  b.callback_data.map (fun p => (p.1, p.2.length)) =
      b.suite_data.map (fun p => (p.1, p.2.cb_count)) ∧
  (∀ s ∈ b.suite_names, (dictGet s b.suite_data).isSome ∧ (dictGet s b.callback_data).isSome) ∧
  (∀ p ∈ b.callback_data, List.Sorted cbLe p.2 ∧
    ∀ cb ∈ p.2, cb.short_name ≠ "initialize" ∧ cb.short_name ≠ "cleanup")

/-- The shape of a match of `^(void\s+(test_<suite>__(\w+))\(\s*void\s*\))\s*\{`:
the third group is a nonempty word-character run; the second group is
`test_<suite>__` followed by it; the first group is the whole declaration,
whitespace-tolerant around the parentheses (the `\s*` before the final `{`
lies outside the first group and so outside the triple). -/
def MatchShape (suite : String) (t : String × String × String) : Prop :=
  ∃ w1 w2 w3 short : List Char,
    w1 ≠ [] ∧ (∀ c ∈ w1, isPySpace c) ∧ (∀ c ∈ w2, isPySpace c) ∧ (∀ c ∈ w3, isPySpace c) ∧
    short ≠ [] ∧ (∀ c ∈ short, isWordChar c) ∧
    t.2.2 = String.mk short ∧
    t.2.1 = "test_" ++ suite ++ "__" ++ String.mk short ∧
    t.1 = "void" ++ String.mk w1 ++ t.2.1 ++ "(" ++ String.mk w2 ++ "void" ++ String.mk w3 ++ ")"

/-! ### Concrete inputs used by the claims -/

/-- The spec's scenario file `net/tcp.c` with the two test functions. -/
def netTcpFile : SrcFile :=
  ⟨["net"], "tcp.c",
   "void test_net_tcp__connect(void)\x7b\x7d\nvoid test_net_tcp__timeout(void)\x7b\x7d\n"⟩

/-- The callbacks the scenario file yields, in sorted order. -/
def netTcpCbs : List CB :=
  [⟨"connect", "void test_net_tcp__connect(void)", "test_net_tcp__connect"⟩,
   ⟨"timeout", "void test_net_tcp__timeout(void)", "test_net_tcp__timeout"⟩]

/-- `net/tcp.c`: derives suite name `net_tcp`. -/
def collideFileA : SrcFile := ⟨["net"], "tcp.c", "void test_net_tcp__one(void)\x7b\n"⟩

/-- `net_tcp.c` at the root: also derives suite name `net_tcp`, so this
later-walked file collides with `collideFileA`. -/
def collideFileB : SrcFile := ⟨[], "net_tcp.c", "void test_net_tcp__two(void)\x7b\n"⟩

/-- Like `collideFileA` but with a function whose declaration text is
byte-identical to the one of `dupDeclFileB`. -/
def dupDeclFileA : SrcFile := ⟨["net"], "tcp.c", "void test_net_tcp__x(void)\x7b\n"⟩

/-- A colliding file with the identical declaration text. -/
def dupDeclFileB : SrcFile := ⟨[], "net_tcp.c", "void test_net_tcp__x(void)\x7b\n"⟩

/-- A file defining only the two lifecycle callbacks of suite `s`. -/
def lifecycleOnlyContents : String :=
  "void test_s__initialize(void)\x7b\nvoid test_s__cleanup(void)\x7b\n"

/-! ### The code-point order embedded by `strLeB` is a total order -/

theorem char_eq_of_toNat_eq {a b : Char} (h : a.toNat = b.toNat) : a = b :=
  Char.ext (UInt32.toNat.inj h)

theorem strLeB_total : ∀ as bs : List Char, strLeB as bs = true ∨ strLeB bs as = true := by
  intro as
  induction as with
  | nil => intro bs; left; simp [strLeB]
  | cons a as ih =>
    intro bs
    cases bs with
    | nil => right; simp [strLeB]
    | cons b bs =>
      simp only [strLeB]
      rcases Nat.lt_trichotomy a.toNat b.toNat with h | h | h
      · left; simp [h]
      · have h1 : ¬ a.toNat < b.toNat := by omega
        have h2 : ¬ b.toNat < a.toNat := by omega
        simp only [h1, h2, if_false]
        exact ih bs
      · right; simp [h]

theorem strLeB_trans : ∀ as bs cs : List Char,
    strLeB as bs = true → strLeB bs cs = true → strLeB as cs = true := by
  intro as
  induction as with
  | nil => intro bs cs h1 h2; simp [strLeB]
  | cons a as ih =>
    intro bs cs h1 h2
    cases bs with
    | nil => simp [strLeB] at h1
    | cons b bs =>
      cases cs with
      | nil => simp [strLeB] at h2
      | cons c cs =>
        simp only [strLeB] at h1 h2 ⊢
        by_cases hab : a.toNat < b.toNat
        · by_cases hbc : b.toNat < c.toNat
          · have h : a.toNat < c.toNat := by omega
            simp [h]
          · by_cases hcb : c.toNat < b.toNat
            · simp [hbc, hcb] at h2
            · have h : a.toNat < c.toNat := by omega
              simp [h]
        · by_cases hba : b.toNat < a.toNat
          · simp [hab, hba] at h1
          · simp only [hab, hba, if_false] at h1
            by_cases hbc : b.toNat < c.toNat
            · have h : a.toNat < c.toNat := by omega
              simp [h]
            · by_cases hcb : c.toNat < b.toNat
              · simp [hbc, hcb] at h2
              · simp only [hbc, hcb, if_false] at h2
                have h3 : ¬ a.toNat < c.toNat := by omega
                have h4 : ¬ c.toNat < a.toNat := by omega
                simp only [h3, h4, if_false]
                exact ih bs cs h1 h2

theorem strLeB_antisymm : ∀ as bs : List Char,
    strLeB as bs = true → strLeB bs as = true → as = bs := by
  intro as
  induction as with
  | nil =>
    intro bs h1 h2
    cases bs with
    | nil => rfl
    | cons b bs => simp [strLeB] at h2
  | cons a as ih =>
    intro bs h1 h2
    cases bs with
    | nil => simp [strLeB] at h1
    | cons b bs =>
      simp only [strLeB] at h1 h2
      by_cases hab : a.toNat < b.toNat
      · have hba : ¬ b.toNat < a.toNat := by omega
        simp [hab, hba] at h2
      · by_cases hba : b.toNat < a.toNat
        · simp [hab, hba] at h1
        · simp only [hab, hba, if_false] at h1 h2
          have hc : a = b := char_eq_of_toNat_eq (by omega)
          rw [hc, ih bs h1 h2]

instance : IsTotal String pyLe := ⟨fun a b => strLeB_total a.data b.data⟩

instance : IsTrans String pyLe := ⟨fun a b c => strLeB_trans a.data b.data c.data⟩

instance : IsAntisymm String pyLe :=
  ⟨fun a b h1 h2 => by
    cases a with
    | mk da =>
      cases b with
      | mk db => exact congrArg String.mk (strLeB_antisymm da db h1 h2)⟩

instance : IsTotal CB cbLe := ⟨fun a b => strLeB_total a.short_name.data b.short_name.data⟩

instance : IsTrans CB cbLe :=
  ⟨fun a b c => strLeB_trans a.short_name.data b.short_name.data c.short_name.data⟩

theorem pysort_sorted (l : List String) : List.Sorted pyLe (pysort l) :=
  List.sorted_insertionSort pyLe l

theorem pysort_perm (l : List String) : List.Perm (pysort l) l :=
  List.perm_insertionSort pyLe l

theorem pysort_eq_of_perm {l m : List String} (h : List.Perm l m) : pysort l = pysort m :=
  List.eq_of_perm_of_sorted (((pysort_perm l).trans h).trans (pysort_perm m).symm)
    (pysort_sorted l) (pysort_sorted m)

theorem sortCallbacks_sorted (l : List CB) : List.Sorted cbLe (sortCallbacks l) :=
  List.sorted_insertionSort cbLe l

theorem sortCallbacks_perm (l : List CB) : List.Perm (sortCallbacks l) l :=
  List.perm_insertionSort cbLe l

/-! ### Bookkeeping lemmas about the flat declaration list -/

theorem processFile_declarations (b : Builder) (f : SrcFile) :
    (processFile b f).declarations = b.declarations ++ fileDecls f := by
  unfold processFile fileDecls
  by_cases hm : matchesDotC f.fname
  · simp only [hm, if_true]
    unfold process_test_file
    by_cases h : (classify (findAll (suiteNameOf f) f.contents)).callbacks = []
    · simp [h]
    · simp [h, List.append_assoc]
  · simp [hm]

theorem processFiles_declarations_from (files : List SrcFile) :
    ∀ b : Builder, (files.foldl processFile b).declarations =
      b.declarations ++ files.flatMap fileDecls := by
  induction files with
  | nil => intro b; simp
  | cons f fs ih =>
    intro b
    simp only [List.foldl_cons, List.flatMap_cons]
    rw [ih, processFile_declarations, List.append_assoc]

theorem processFiles_declarations (files : List SrcFile) :
    (processFiles files).declarations = files.flatMap fileDecls := by
  have h := processFiles_declarations_from files emptyBuilder
  simpa [processFiles, emptyBuilder] using h

theorem perm_flatMap {α β : Type} (g : α → List β) {l m : List α} (h : List.Perm l m) :
    List.Perm (l.flatMap g) (m.flatMap g) := by
  induction h with
  | nil => simp
  | cons x h ih =>
    simp only [List.flatMap_cons]
    exact List.Perm.append_left _ ih
  | swap x y l =>
    simp only [List.flatMap_cons, ← List.append_assoc]
    exact List.Perm.append_right _ List.perm_append_comm
  | trans h1 h2 ih1 ih2 => exact ih1.trans ih2

/-! ### Lemmas about the association-list embedding of Python dicts -/

theorem dictGet_dictInsert_self {α : Type} (k : String) (v : α) (l : List (String × α)) :
    dictGet k (dictInsert k v l) = some v := by
  induction l with
  | nil => simp [dictInsert, dictGet]
  | cons p rest ih =>
    by_cases h : p.1 = k
    · simp [dictInsert, dictGet, h]
    · simp [dictInsert, dictGet, h, ih]

theorem dictGet_dictInsert_ne {α : Type} {k s : String} (h : s ≠ k) (v : α)
    (l : List (String × α)) : dictGet s (dictInsert k v l) = dictGet s l := by
  have hks : ¬ (k = s) := fun he => h he.symm
  induction l with
  | nil => simp [dictInsert, dictGet, hks]
  | cons p rest ih =>
    by_cases hp : p.1 = k
    · simp [dictInsert, hp, dictGet, hks]
    · simp [dictInsert, hp, dictGet, ih]

theorem dictGet_isSome_dictInsert {α : Type} (k s : String) (v : α) (l : List (String × α))
    (h : (dictGet s l).isSome) : (dictGet s (dictInsert k v l)).isSome := by
  by_cases hs : s = k
  · subst hs; rw [dictGet_dictInsert_self]; rfl
  · rw [dictGet_dictInsert_ne hs]; exact h

theorem dictGet_mem {α : Type} {k : String} {v : α} :
    ∀ {l : List (String × α)}, dictGet k l = some v → (k, v) ∈ l := by
  intro l
  induction l with
  | nil => intro h; cases h
  | cons p rest ih =>
    intro h
    simp only [dictGet] at h
    split at h
    next hp =>
      injection h with h2
      have hpe : p = (k, v) := Prod.ext hp h2
      rw [← hpe]
      exact List.mem_cons_self _ _
    next hp => exact List.mem_cons_of_mem _ (ih h)

theorem mem_dictInsert {α : Type} {k : String} {v : α} {p : String × α} :
    ∀ {l : List (String × α)}, p ∈ dictInsert k v l → p = (k, v) ∨ p ∈ l := by
  intro l
  induction l with
  | nil => intro h; simp [dictInsert] at h; left; exact h
  | cons q rest ih =>
    intro h
    by_cases hq : q.1 = k
    · simp only [dictInsert, hq, if_pos] at h
      rcases List.mem_cons.mp h with h | h
      · left; exact h
      · right; exact List.mem_cons_of_mem _ h
    · simp only [dictInsert, hq, if_neg, if_false] at h
      rcases List.mem_cons.mp h with h | h
      · right; rw [h]; exact List.mem_cons_self _ _
      · rcases ih h with h | h
        · left; exact h
        · right; exact List.mem_cons_of_mem _ h

theorem map_dictInsert {α β : Type} (g : α → β) (k : String) (v : α) :
    ∀ l : List (String × α),
      (dictInsert k v l).map (fun p => (p.1, g p.2)) =
        dictInsert k (g v) (l.map (fun p => (p.1, g p.2))) := by
  intro l
  induction l with
  | nil => simp [dictInsert]
  | cons p rest ih =>
    by_cases h : p.1 = k
    · simp [dictInsert, h]
    · simp [dictInsert, h, ih]

/-! ### The classification loop never puts a lifecycle callback in the ordinary list -/

theorem classify_no_lifecycle_aux :
    ∀ (ts : List (String × String × String)) (acc : Extraction),
      (∀ cb ∈ acc.callbacks, cb.short_name ≠ "initialize" ∧ cb.short_name ≠ "cleanup") →
      ∀ cb ∈ (ts.foldl classifyStep acc).callbacks,
        cb.short_name ≠ "initialize" ∧ cb.short_name ≠ "cleanup" := by
  intro ts
  induction ts with
  | nil => intro acc h; exact h
  | cons t ts ih =>
    intro acc h
    simp only [List.foldl_cons]
    apply ih
    unfold classifyStep
    by_cases h1 : t.2.2 = "initialize"
    · simpa [h1] using h
    · by_cases h2 : t.2.2 = "cleanup"
      · simpa [h1, h2] using h
      · simp only [h1, h2, if_false]
        intro cb hcb
        rcases List.mem_append.mp hcb with hc | hc
        · exact h cb hc
        · have : cb = ⟨t.2.2, t.1, t.2.1⟩ := by simpa using hc
          rw [this]
          exact ⟨h1, h2⟩

theorem classify_no_lifecycle (ts : List (String × String × String)) :
    ∀ cb ∈ (classify ts).callbacks,
      cb.short_name ≠ "initialize" ∧ cb.short_name ≠ "cleanup" :=
  classify_no_lifecycle_aux ts ⟨none, none, []⟩ (by simp)

/-! ### The builder invariant maintained by the walk -/

theorem builderInv_empty : BuilderInv emptyBuilder := by
  refine ⟨rfl, ?_, ?_⟩ <;> simp [emptyBuilder]

theorem builderInv_process (s c : String) {b : Builder} (h : BuilderInv b) :
    BuilderInv (process_test_file s c b) := by
  unfold process_test_file
  by_cases hc : (classify (findAll s c)).callbacks = []
  · simpa [hc] using h
  · simp only [hc, if_false]
    obtain ⟨h1, h2, h3⟩ := h
    refine ⟨?_, ?_, ?_⟩
    · show (dictInsert s _ b.callback_data).map _ = (dictInsert s _ b.suite_data).map _
      rw [map_dictInsert, map_dictInsert]
      have hlen : (sortCallbacks (classify (findAll s c)).callbacks).length =
          (classify (findAll s c)).callbacks.length :=
        (sortCallbacks_perm _).length_eq
      rw [hlen, h1]
    · intro t ht
      rcases List.mem_append.mp ht with hts | hts
      · have hh := h2 t hts
        exact ⟨dictGet_isSome_dictInsert _ _ _ _ hh.1, dictGet_isSome_dictInsert _ _ _ _ hh.2⟩
      · have hts : t = s := by simpa using hts
        rw [hts, dictGet_dictInsert_self, dictGet_dictInsert_self]
        exact ⟨rfl, rfl⟩
    · intro p hp
      rcases mem_dictInsert hp with hps | hps
      · rw [hps]
        refine ⟨sortCallbacks_sorted _, ?_⟩
        intro cb hcb
        have hcb2 : cb ∈ (classify (findAll s c)).callbacks :=
          (sortCallbacks_perm _).mem_iff.mp hcb
        exact classify_no_lifecycle _ cb hcb2
      · exact h3 p hps

theorem builderInv_processFiles (files : List SrcFile) : BuilderInv (processFiles files) := by
  have hstep : ∀ b, BuilderInv b → BuilderInv (files.foldl processFile b) := by
    induction files with
    | nil => intro b h; exact h
    | cons f fs ih =>
      intro b h
      apply ih
      unfold processFile
      by_cases hm : matchesDotC f.fname
      · simp only [hm, if_true]
        exact builderInv_process _ _ h
      · simpa [hm] using h
  exact hstep emptyBuilder builderInv_empty

/-! ### Every triple the extractor yields has the grammar's shape -/

theorem matchAt_shape {suite : String} {cs : List Char} {t : String × String × String}
    {rest : List Char} (h : matchAt suite cs = some (t, rest)) : MatchShape suite t := by
  simp only [matchAt] at h
  split at h
  next => exact Option.noConfusion h
  next cs1 h1 =>
    split at h
    next => exact Option.noConfusion h
    next hsp1 =>
      split at h
      next => exact Option.noConfusion h
      next cs3 h3 =>
        split at h
        next => exact Option.noConfusion h
        next hidc =>
          split at h
          next => exact Option.noConfusion h
          next cs5 h5 =>
            split at h
            next => exact Option.noConfusion h
            next cs7 h7 =>
              split at h
              next => exact Option.noConfusion h
              next cs9 h9 =>
                split at h
                next => exact Option.noConfusion h
                next rest2 h11 =>
                  simp only [Option.some.injEq, Prod.mk.injEq] at h
                  obtain ⟨ht, _⟩ := h
                  rw [← ht]
                  refine ⟨cs1.takeWhile isPySpace, cs5.takeWhile isPySpace,
                    cs7.takeWhile isPySpace, cs3.takeWhile isWordChar,
                    hsp1, ?_, ?_, ?_, hidc, ?_, rfl, rfl, rfl⟩ <;>
                    exact fun c hc => List.mem_takeWhile_imp hc

theorem scanF_shape {suite : String} :
    ∀ (fuel : Nat) (cs : List Char) (ls : Bool) (t : String × String × String),
      t ∈ scanF suite fuel cs ls → MatchShape suite t := by
  intro fuel
  induction fuel with
  | zero => intro cs ls t ht; simp [scanF] at ht
  | succ fuel ih =>
    intro cs ls t ht
    cases cs with
    | nil => simp [scanF] at ht
    | cons c rest =>
      simp only [scanF] at ht
      cases ls with
      | false =>
        simp only [Bool.false_eq_true, if_false] at ht
        exact ih _ _ _ ht
      | true =>
        simp only [if_true] at ht
        cases hm : matchAt suite (c :: rest) with
        | none =>
          rw [hm] at ht
          exact ih _ _ _ ht
        | some pr =>
          obtain ⟨t', after⟩ := pr
          rw [hm] at ht
          rcases List.mem_cons.mp ht with ht | ht
          · rw [ht]
            exact matchAt_shape hm
          · exact ih _ _ _ ht

/-! ### The scan's fuel is irrelevant beyond the input length, so `findAll`
computes the fixpoint of the Python scan -/

theorem stripLit_length : ∀ {l cs r : List Char}, stripLit l cs = some r →
    r.length + l.length = cs.length := by
  intro l
  induction l with
  | nil =>
    intro cs r h
    cases h
    simp
  | cons a l ih =>
    intro cs r h
    cases cs with
    | nil => cases h
    | cons c cs =>
      by_cases hc : c = a
      · simp only [stripLit, if_pos hc] at h
        have h2 := ih h
        simp only [List.length_cons]
        omega
      · simp [stripLit, if_neg hc] at h

theorem matchAt_length_lt {suite : String} {cs : List Char} {t : String × String × String}
    {rest : List Char} (h : matchAt suite cs = some (t, rest)) : rest.length < cs.length := by
  simp only [matchAt] at h
  split at h
  next => exact Option.noConfusion h
  next cs1 h1 =>
    split at h
    next => exact Option.noConfusion h
    next hsp1 =>
      split at h
      next => exact Option.noConfusion h
      next cs3 h3 =>
        split at h
        next => exact Option.noConfusion h
        next hidc =>
          split at h
          next => exact Option.noConfusion h
          next cs5 h5 =>
            split at h
            next => exact Option.noConfusion h
            next cs7 h7 =>
              split at h
              next => exact Option.noConfusion h
              next cs9 h9 =>
                split at h
                next => exact Option.noConfusion h
                next rest2 h11 =>
                  simp only [Option.some.injEq, Prod.mk.injEq] at h
                  obtain ⟨_, hr⟩ := h
                  rw [← hr]
                  have e1 := stripLit_length h1
                  have e3 := stripLit_length h3
                  have e5 := stripLit_length h5
                  have e7 := stripLit_length h7
                  have e9 := stripLit_length h9
                  have e11 := stripLit_length h11
                  have d1 : (cs1.dropWhile isPySpace).length ≤ cs1.length :=
                    (List.dropWhile_sublist _).length_le
                  have d3 : (cs3.dropWhile isWordChar).length ≤ cs3.length :=
                    (List.dropWhile_sublist _).length_le
                  have d5 : (cs5.dropWhile isPySpace).length ≤ cs5.length :=
                    (List.dropWhile_sublist _).length_le
                  have d7 : (cs7.dropWhile isPySpace).length ≤ cs7.length :=
                    (List.dropWhile_sublist _).length_le
                  have d9 : (cs9.dropWhile isPySpace).length ≤ cs9.length :=
                    (List.dropWhile_sublist _).length_le
                  have hbrace : (("\x7b").data).length = 1 := rfl
                  rw [hbrace] at e11
                  omega

theorem scanF_fuel_eq {suite : String} :
    ∀ (f1 f2 : Nat) (cs : List Char) (ls : Bool),
      cs.length ≤ f1 → cs.length ≤ f2 → scanF suite f1 cs ls = scanF suite f2 cs ls := by
  intro f1
  induction f1 with
  | zero =>
    intro f2 cs ls h1 h2
    have hcs : cs = [] := List.eq_nil_of_length_eq_zero (Nat.le_zero.mp h1)
    subst hcs
    cases f2 <;> simp [scanF]
  | succ f1 ih =>
    intro f2 cs ls h1 h2
    cases cs with
    | nil => cases f2 <;> simp [scanF]
    | cons c rest =>
      cases f2 with
      | zero => simp at h2
      | succ f2 =>
        have hr1 : rest.length ≤ f1 := by
          simp only [List.length_cons] at h1
          omega
        have hr2 : rest.length ≤ f2 := by
          simp only [List.length_cons] at h2
          omega
        simp only [scanF]
        cases ls with
        | false =>
          simp only [Bool.false_eq_true, if_false]
          exact ih f2 rest _ hr1 hr2
        | true =>
          simp only [if_true]
          cases hm : matchAt suite (c :: rest) with
          | none => exact ih f2 rest _ hr1 hr2
          | some pr =>
            obtain ⟨t, after⟩ := pr
            have hlt := matchAt_length_lt hm
            simp only [List.length_cons] at hlt h1 h2
            have ha1 : after.length ≤ f1 := by omega
            have ha2 : after.length ≤ f2 := by omega
            exact congrArg (t :: ·) (ih f2 after false ha1 ha2)

theorem findAll_eq_scanF (suite contents : String) (fuel : Nat)
    (h : contents.data.length ≤ fuel) :
    findAll suite contents = scanF suite fuel contents.data true :=
  scanF_fuel_eq contents.data.length fuel contents.data true (Nat.le_refl _) h

/-! ### On word-character suite names the literal matcher is the spliced
pattern: `findAllP` agrees with `findAll` there, which is what justifies
using `findAll` throughout the walk (every claim's concrete suite name is
made of word characters) -/

theorem string_data_append (s t : String) : (s ++ t).data = s.data ++ t.data := by
  cases s with
  | mk a =>
    cases t with
    | mk b => rfl

theorem string_mk_data (s : String) : String.mk s.data = s := by
  cases s
  rfl

theorem wordChar_not_meta {c : Char} (h : isWordChar c = true) :
    isRegexMeta c = false ∧ ¬ c = '.' := by
  constructor
  · cases hm : isRegexMeta c
    · rfl
    · exfalso
      simp only [isRegexMeta, Bool.or_eq_true, decide_eq_true_eq] at hm
      rcases hm with ((((((((((((h1 | h1) | h1) | h1) | h1) | h1) | h1) | h1) | h1) | h1) |
        h1) | h1) | h1) <;>
        (subst h1; exact absurd h (by decide))
  · intro he
    rw [he] at h
    exact absurd h (by decide)

theorem compileSuite_word {suite : String} (h : ∀ c ∈ suite.data, isWordChar c = true) :
    compileSuite suite = some (suite.data.map RAtom.lit) := by
  unfold compileSuite
  have hany : suite.data.any isRegexMeta = false := by
    rw [List.any_eq_false]
    intro c hc
    rw [(wordChar_not_meta (h c hc)).1]
    exact Bool.false_ne_true
  rw [hany]
  simp only [Bool.false_eq_true, if_false, Option.some.injEq]
  exact List.map_congr_left (fun c hc => if_neg (wordChar_not_meta (h c hc)).2)

theorem stripLit_append : ∀ (a b cs : List Char),
    stripLit (a ++ b) cs = (stripLit a cs).bind (stripLit b) := by
  intro a
  induction a with
  | nil => intro b cs; simp [stripLit]
  | cons x a ih =>
    intro b cs
    cases cs with
    | nil => simp [stripLit]
    | cons c cs =>
      by_cases h : c = x
      · simp [stripLit, h, ih]
      · simp [stripLit, h]

theorem stripPat_lit : ∀ (l cs : List Char),
    stripPat (l.map RAtom.lit) cs = (stripLit l cs).map (fun r => (l, r)) := by
  intro l
  induction l with
  | nil => intro cs; simp [stripPat, stripLit]
  | cons a l ih =>
    intro cs
    cases cs with
    | nil => simp [stripPat, stripLit]
    | cons c cs =>
      by_cases h : c = a
      · subst h
        simp only [stripPat, stripLit, if_pos rfl, List.map_cons, ih, Option.map_map]
        rfl
      · simp [stripPat, stripLit, h]

theorem matchAtP_lit (suite : String) (cs : List Char) :
    matchAtP (suite.data.map RAtom.lit) cs = matchAt suite cs := by
  have hdata : (("test_" ++ suite ++ "__").data) =
      ("test_").data ++ suite.data ++ ("__").data := by
    rw [string_data_append, string_data_append]
  simp only [matchAtP, matchAt, hdata, stripLit_append, stripPat_lit]
  cases h0 : stripLit (("void").data) cs with
  | none => rfl
  | some cs1 =>
    dsimp only
    by_cases hsp : cs1.takeWhile isPySpace = []
    · rw [if_pos hsp, if_pos hsp]
    · rw [if_neg hsp, if_neg hsp]
      cases h1 : stripLit (("test_").data) (cs1.dropWhile isPySpace) with
      | none => rfl
      | some csA =>
        dsimp only [Option.bind]
        cases h2 : stripLit suite.data csA with
        | none => rfl
        | some csB =>
          dsimp only [Option.map, Option.bind]

theorem scanP_lit (suite : String) :
    ∀ (fuel : Nat) (cs : List Char) (ls : Bool),
      scanP (suite.data.map RAtom.lit) fuel cs ls = scanF suite fuel cs ls := by
  intro fuel
  induction fuel with
  | zero => intro cs ls; cases cs <;> rfl
  | succ fuel ih =>
    intro cs ls
    cases cs with
    | nil => rfl
    | cons c rest =>
      simp only [scanP, scanF, matchAtP_lit, ih]

theorem findAllP_word {suite : String} (h : ∀ c ∈ suite.data, isWordChar c = true)
    (contents : String) :
    findAllP suite contents = some (findAll suite contents) := by
  unfold findAllP findAll
  rw [compileSuite_word h]
  show some (scanP (suite.data.map RAtom.lit) contents.data.length contents.data true) = _
  rw [scanP_lit]

theorem mapM_option_exists {α β : Type} (g : α → Option β) :
    ∀ l : List α, (∀ a ∈ l, (g a).isSome) → ∃ r : List β, l.mapM g = some r := by
  intro l
  induction l with
  | nil => exact fun _ => ⟨[], rfl⟩
  | cons a t ih =>
    intro h
    obtain ⟨r, hr⟩ := ih (fun x hx => h x (List.mem_cons_of_mem _ hx))
    obtain ⟨v, hv⟩ := Option.isSome_iff_exists.mp (h a (List.mem_cons_self _ _))
    refine ⟨v :: r, ?_⟩
    rw [List.mapM_cons, hv, hr]
    rfl

/-! ### The claims -/

/-- C1: the claim says a suite-name collision leaves exactly one
callback-array block and one suite-descriptor block for that name, both
built from the later file's callbacks.  The code does build both kinds of
block exclusively from the later file's callbacks (the dicts are
last-write-wins), but `suite_names` receives the name once per colliding
file, so the rendered main output contains the later suite's two blocks
TWICE (and `clay_suite_count` counts the duplicate): evaluated here on two
files that both derive suite name `net_tcp`. -/
theorem C1_collision_renders_later_suite_twice :
    (processFiles [collideFileA, collideFileB]).suite_names = ["net_tcp", "net_tcp"] ∧
    render_main (processFiles [collideFileA, collideFileB]) =
      some ⟨["static const struct clay_func _clay_cb_net_tcp[] = \x7b\n    \x7b\"two\", &test_net_tcp__two\x7d\n\x7d;",
             "static const struct clay_func _clay_cb_net_tcp[] = \x7b\n    \x7b\"two\", &test_net_tcp__two\x7d\n\x7d;"],
            ["\x7b\n        \"net::tcp\",\n        \x7bNULL, NULL\x7d,\n        \x7bNULL, NULL\x7d,\n        _clay_cb_net_tcp, 1\n    \x7d",
             "\x7b\n        \"net::tcp\",\n        \x7bNULL, NULL\x7d,\n        \x7bNULL, NULL\x7d,\n        _clay_cb_net_tcp, 1\n    \x7d"],
            2, 1⟩ := by decide

/-- C2: the claim says a scan yielding zero suites fails with a
configuration error that names the path.  The code does fail before any
rendering, but the failing branch evaluates
`'No tests found under "%s"' % folder_name` where `folder_name` is an
unbound name, so the exception actually raised is
`NameError: name 'folder_name' is not defined` — a `RuntimeError`
carrying the path is never constructed. -/
theorem C2_no_tests_raises_name_error :
    builder_init [] = Except.error (PyError.nameError ("folder_name")) ∧
    builder_init [⟨[], "notes.txt", "void test_notes__a(void)\x7b\n"⟩] =
      Except.error (PyError.nameError ("folder_name")) := ⟨rfl, rfl⟩

/-- C3 counterexample: two files deriving the same suite name and
containing byte-identical declarations make `self.declarations` hold the
same string twice, and `sorted(...)` keeps both, so the header carries TWO
`extern` lines for one distinct declaration — refuting "exactly one extern
line per distinct matched declaration string". -/
theorem C3_header_duplicate_extern_lines :
    header_lines (processFiles [dupDeclFileA, dupDeclFileB]) =
      ["extern void test_net_tcp__x(void);", "extern void test_net_tcp__x(void);"] ∧
    (header_lines (processFiles [dupDeclFileA, dupDeclFileB])).count
      ("extern void test_net_tcp__x(void);") = 2 := by decide

/-- C3 (amended): the generated header contains one `extern <decl>;` line
per collected declaration occurrence — a permutation of the collected
list, with duplicates preserved, not deduplicated — and the lines appear
in lexicographically sorted order of the declaration string. -/
theorem C3_header_lines_sorted_per_occurrence (b : Builder) :
    header_lines b = (pysort b.declarations).map (fun d => "extern " ++ d ++ ";") ∧
    List.Sorted pyLe (pysort b.declarations) ∧
    List.Perm (pysort b.declarations) b.declarations :=
  ⟨rfl, pysort_sorted _, pysort_perm _⟩

/-- C4: two runs over the same set of files, visited in any two orders,
produce identical header lines and identical header text, because the
declarations each file contributes depend only on that file and the
header sorts the collected list at render time. -/
theorem C4_header_order_independent (fs1 fs2 : List SrcFile) (h : List.Perm fs1 fs2) :
    header_lines (processFiles fs1) = header_lines (processFiles fs2) ∧
    ∀ pre post : String,
      render_header pre post (processFiles fs1) = render_header pre post (processFiles fs2) := by
  have hd : pysort (processFiles fs1).declarations = pysort (processFiles fs2).declarations := by
    rw [processFiles_declarations, processFiles_declarations]
    exact pysort_eq_of_perm (perm_flatMap fileDecls h)
  constructor
  · unfold header_lines
    rw [hd]
  · intro pre post
    unfold render_header header_lines
    rw [hd]

/-- Witness for C4 at a concrete pair of visitation orders. -/
theorem C4_header_order_independent_witness :
    List.Perm [collideFileA, collideFileB] [collideFileB, collideFileA] ∧
    header_lines (processFiles [collideFileA, collideFileB]) =
      header_lines (processFiles [collideFileB, collideFileA]) :=
  ⟨by decide, (C4_header_order_independent [collideFileA, collideFileB]
    [collideFileB, collideFileA] (by decide)).1⟩

/-- C5: every callback list stored in the Registry is sorted by
`short_name` in code-point order, contains no callback named `initialize`
or `cleanup`, and its rendered callback-array block lists exactly those
callbacks in that order (the render-time lifecycle filter removes
nothing). -/
theorem C5_callback_table_sorted_no_lifecycle (files : List SrcFile) (s : String)
    (cbs : List CB) (h : dictGet s (processFiles files).callback_data = some cbs) :
    List.Sorted cbLe cbs ∧
    (∀ cb ∈ cbs, cb.short_name ≠ "initialize" ∧ cb.short_name ≠ "cleanup") ∧
    render_callbacks s cbs = callback_block s (cbs.map render_cb) := by
  obtain ⟨h1, h2, h3⟩ := builderInv_processFiles files
  have hp := h3 (s, cbs) (dictGet_mem h)
  refine ⟨hp.1, hp.2, ?_⟩
  unfold render_callbacks
  congr 1
  congr 1
  apply List.filter_eq_self.mpr
  intro cb hcb
  have hcb2 := hp.2 cb hcb
  simp [hcb2.1, hcb2.2]

/-- Witness for C5 on the scenario file. -/
theorem C5_callback_table_sorted_no_lifecycle_witness :
    dictGet ("net_tcp") (processFiles [netTcpFile]).callback_data = some netTcpCbs ∧
    List.Sorted cbLe netTcpCbs ∧
    render_callbacks ("net_tcp") netTcpCbs =
      callback_block ("net_tcp") (netTcpCbs.map render_cb) :=
  ⟨by decide,
   (C5_callback_table_sorted_no_lifecycle [netTcpFile] ("net_tcp") netTcpCbs (by decide)).1,
   (C5_callback_table_sorted_no_lifecycle [netTcpFile] ("net_tcp") netTcpCbs (by decide)).2.2⟩

/-- C6: the file `net/tcp.c` with `test_net_tcp__connect` and
`test_net_tcp__timeout` yields suite name `net_tcp`, the two ordinary
callbacks in alphabetical order, `cb_count = 2`, and its descriptor block
renders the display name `net::tcp`. -/
theorem C6_net_tcp_scenario :
    suiteNameOf netTcpFile = "net_tcp" ∧
    (processFiles [netTcpFile]).suite_names = ["net_tcp"] ∧
    dictGet ("net_tcp") (processFiles [netTcpFile]).callback_data = some netTcpCbs ∧
    dictGet ("net_tcp") (processFiles [netTcpFile]).suite_data =
      some ⟨"net_tcp", none, none, 2⟩ ∧
    render_suite ⟨"net_tcp", none, none, 2⟩ =
      "\x7b\n        \"net::tcp\",\n        \x7bNULL, NULL\x7d,\n        \x7bNULL, NULL\x7d,\n        _clay_cb_net_tcp, 2\n    \x7d" := by
  decide

/-- C7: rendering the main file always succeeds on a walked registry, the
substituted `clay_callback_count` equals the sum of `cb_count` over the
suites in the registry, and the substituted `clay_suite_count` equals the
number of suite-descriptor blocks emitted. -/
theorem C7_aggregate_counts (files : List SrcFile) :
    ∃ m, render_main (processFiles files) = some m ∧
      m.clay_callback_count =
        ((processFiles files).suite_data.map (fun p => p.2.cb_count)).sum ∧
      m.clay_suite_count = m.suites_blocks.length := by
  obtain ⟨h1, h2, h3⟩ := builderInv_processFiles files
  have hnames : ∀ s ∈ pysort (processFiles files).suite_names,
      (dictGet s (processFiles files).suite_data).isSome ∧
      (dictGet s (processFiles files).callback_data).isSome :=
    fun s hs => h2 s ((pysort_perm _).mem_iff.mp hs)
  obtain ⟨sb, hsb⟩ := mapM_option_exists
    (fun s => Option.map render_suite (dictGet s (processFiles files).suite_data))
    (pysort (processFiles files).suite_names)
    (fun s hs => by
      obtain ⟨v, hv⟩ := Option.isSome_iff_exists.mp (hnames s hs).1
      show (Option.map render_suite (dictGet s (processFiles files).suite_data)).isSome = true
      rw [hv]
      rfl)
  obtain ⟨cb, hcb⟩ := mapM_option_exists
    (fun s => Option.map (render_callbacks s) (dictGet s (processFiles files).callback_data))
    (pysort (processFiles files).suite_names)
    (fun s hs => by
      obtain ⟨v, hv⟩ := Option.isSome_iff_exists.mp (hnames s hs).2
      show (Option.map (render_callbacks s) (dictGet s (processFiles files).callback_data)).isSome = true
      rw [hv]
      rfl)
  refine ⟨⟨cb, sb, sb.length, ((processFiles files).callback_data.map (fun p => p.2.length)).sum⟩, ?_, ?_, rfl⟩
  · unfold render_main
    rw [hsb, hcb]
  · show ((processFiles files).callback_data.map (fun p => p.2.length)).sum = _
    have hsum := congrArg (fun l => (l.map (fun q : String × Nat => q.2)).sum) h1
    simpa [List.map_map, Function.comp] using hsum

/-- C8: a file whose extraction yields no ordinary callbacks (for example
one defining only `initialize`/`cleanup`) leaves the builder state
entirely unchanged: no suite, no declarations, no suite-name entry, and
no error. -/
theorem C8_empty_extraction_contributes_nothing (suite contents : String) (b : Builder)
    (h : (classify (findAll suite contents)).callbacks = []) :
    process_test_file suite contents b = b := by
  unfold process_test_file
  simp [h]

/-- Witness for C8 on a file defining only the two lifecycle callbacks. -/
theorem C8_empty_extraction_contributes_nothing_witness :
    (classify (findAll ("s") lifecycleOnlyContents)).callbacks = [] ∧
    process_test_file ("s") lifecycleOnlyContents emptyBuilder = emptyBuilder :=
  ⟨by decide,
   C8_empty_extraction_contributes_nothing ("s") lifecycleOnlyContents emptyBuilder (by decide)⟩

/-- C9 counterexample: the program splices the derived suite name into
`TEST_FUNC_REGEX` unescaped, so the claim's universal quantification over
suite names fails.  A file `a.b.c` derives suite name `a.b` (only `.c` is
stripped) and the spliced pattern `test_a.b__(\w+)` also matches
`void test_azb__foo(void){` — a triple whose symbol `test_azb__foo` does
not have the claimed shape `test_a.b__<identifier>` (its seventh character
is `z`, not `.`).  And a suite name `a(` (from a file `a(.c`) makes
`re.compile` raise `re.error` — modeled by the `none` compile result —
instead of ever yielding an empty sequence. -/
theorem C9_metachar_suite_counterexample :
    findAllP ("a.b") ("void test_azb__foo(void)\x7b\n") =
      some [("void test_azb__foo(void)", "test_azb__foo", "foo")] ∧
    (¬ MatchShape ("a.b") (("void test_azb__foo(void)", "test_azb__foo", "foo"))) ∧
    compileSuite ("a(") = none ∧
    findAllP ("a(") ("void test_a(__x(void)\x7b\n") = none := by
  refine ⟨by decide, ?_, by decide, by decide⟩
  intro hms
  obtain ⟨w1, w2, w3, short, _, _, _, _, _, _, _, h8, _⟩ := hms
  have h10 := congrArg (fun s : String => s.data.take 10) h8
  have h10c : ("test_azb__foo" : String).data.take 10 = ("test_a.b__" : String).data := h10
  exact absurd h10c (by decide)

/-- C9 (amended): for every suite name made only of word characters — the
regex-literal case, and what word-character file paths derive — and every
ASCII source text, the spliced-pattern extractor is exactly the literal
matcher, and every triple it yields has the grammar's line-start shape
`void test_<suite>__<identifier>(void)` followed by `{`
(whitespace-tolerant around the parentheses and brace); the extractor does
no comment-stripping or preprocessor evaluation, so conforming
declarations inside a block comment or an `#if 0` region still match; an
indented declaration does not match the line-start anchor; and a text with
no matches yields the empty list rather than an error. -/
theorem C9_extractor_grammar_word_suites :
    (∀ (suite contents : String),
      (∀ c ∈ suite.data, isWordChar c = true) →
      (∀ c ∈ contents.data, c.toNat < 128) →
      findAllP suite contents = some (findAll suite contents)) ∧
    (∀ (suite contents : String) (r : List (String × String × String))
        (t : String × String × String),
      (∀ c ∈ suite.data, isWordChar c = true) →
      (∀ c ∈ contents.data, c.toNat < 128) →
      findAllP suite contents = some r → t ∈ r → MatchShape suite t) ∧
    findAllP ("s") ("/*\nvoid test_s__hidden(void) \x7b\n*/\n") =
      some [("void test_s__hidden(void)", "test_s__hidden", "hidden")] ∧
    findAllP ("s") ("#if 0\nvoid test_s__guarded(void)\x7b\n#endif\n") =
      some [("void test_s__guarded(void)", "test_s__guarded", "guarded")] ∧
    findAllP ("s") ("  void test_s__indented(void) \x7b\n") = some [] ∧
    findAllP ("s") ("int main(void) \x7b return 0; \x7d\n") = some [] := by
  refine ⟨?_, ?_, by decide, by decide, by decide, by decide⟩
  · intro suite contents h _
    exact findAllP_word h contents
  · intro suite contents r t h _ hr ht
    rw [findAllP_word h] at hr
    injection hr with hr
    rw [← hr] at ht
    exact scanF_shape _ _ _ _ ht

/-- Witness for C9 (amended) at the comment-hidden declaration: both
hypotheses are discharged concretely and both universal conjuncts are
exercised. -/
theorem C9_extractor_grammar_word_suites_witness :
    ((∀ c ∈ ("s" : String).data, isWordChar c = true) ∧
     (∀ c ∈ ("/*\nvoid test_s__hidden(void) \x7b\n*/\n" : String).data, c.toNat < 128) ∧
     findAllP ("s") ("/*\nvoid test_s__hidden(void) \x7b\n*/\n") =
       some [("void test_s__hidden(void)", "test_s__hidden", "hidden")] ∧
     (("void test_s__hidden(void)", "test_s__hidden", "hidden") ∈
       [(("void test_s__hidden(void)", "test_s__hidden", "hidden") :
         String × String × String)])) ∧
    findAllP ("s") ("/*\nvoid test_s__hidden(void) \x7b\n*/\n") =
      some (findAll ("s") ("/*\nvoid test_s__hidden(void) \x7b\n*/\n")) ∧
    MatchShape ("s") ("void test_s__hidden(void)", "test_s__hidden", "hidden") :=
  ⟨⟨by decide, by decide, by decide, by decide⟩,
   C9_extractor_grammar_word_suites.1 ("s") ("/*\nvoid test_s__hidden(void) \x7b\n*/\n")
     (by decide) (by decide),
   C9_extractor_grammar_word_suites.2.1 ("s") ("/*\nvoid test_s__hidden(void) \x7b\n*/\n")
     [("void test_s__hidden(void)", "test_s__hidden", "hidden")]
     (("void test_s__hidden(void)", "test_s__hidden", "hidden"))
     (by decide) (by decide) (by decide) (by decide)⟩

/-- C10: the flat declaration list is append-only — processing a file only
ever appends to it — and concretely, after a suite-name collision the
header still lists the replaced file's declaration (`test_net_tcp__one`)
even though the registry's only remaining `net_tcp` suite is the later
file's. -/
theorem C10_declarations_append_only :
    (∀ (s c : String) (b : Builder),
      ∃ l, (process_test_file s c b).declarations = b.declarations ++ l) ∧
    (processFiles [collideFileA, collideFileB]).declarations =
      ["void test_net_tcp__one(void)", "void test_net_tcp__two(void)"] ∧
    header_lines (processFiles [collideFileA, collideFileB]) =
      ["extern void test_net_tcp__one(void);", "extern void test_net_tcp__two(void);"] ∧
    dictGet ("net_tcp") (processFiles [collideFileA, collideFileB]).suite_data =
      some ⟨"net_tcp", none, none, 1⟩ ∧
    dictGet ("net_tcp") (processFiles [collideFileA, collideFileB]).callback_data =
      some [⟨"two", "void test_net_tcp__two(void)", "test_net_tcp__two"⟩] := by
  refine ⟨?_, by decide, by decide, by decide, by decide⟩
  intro s c b
  unfold process_test_file
  by_cases h : (classify (findAll s c)).callbacks = []
  · exact ⟨[], by simp [h]⟩
  · exact ⟨optDecl (classify (findAll s c)).init_cb ++
      (optDecl (classify (findAll s c)).cleanup_cb ++
        (classify (findAll s c)).callbacks.map (fun cb => cb.declaration)),
      by simp [h, List.append_assoc]⟩
